import Mathlib

/-!
Verification of the `array-bytes` hex/array conversion library.

The Rust source (`src/lib.rs`) is shallowly embedded here:
 - byte buffers (`&[u8]`, `Vec<u8]`) become `List Nat` whose elements are
   below 256 where it matters;
 - fallible functions (`Result<T, Error>`) become `Except Error T`;
 - functions that can panic (the `*_unchecked` family, which calls
   `.unwrap()` or indexes out of bounds) become `Option`-valued, `none`
   standing for the panic/abort;
 - the in-place `hex2slice` is modelled by explicit state passing: it
   returns the result together with the final contents of the
   destination slice.
-/

set_option autoImplicit false
set_option maxRecDepth 8000

deriving instance DecidableEq for Except

namespace ArrayBytes

/-- Kinds of `core::num::ParseIntError`, as distinguished by
`from_str_radix` (the only producer used by this library). -/
inductive IntErrorKind where
  | Empty
  | InvalidDigit
  | PosOverflow
  | NegOverflow
  deriving DecidableEq, Repr

/-- The `Error` enum of the library.  The Rust `character: char` field is
a `u8` cast to `char`, so it is kept here as the byte's code point. -/
inductive Error where
  | InvalidLength
  | InvalidCharacter (character : Nat) (index : Nat)
  | MismatchedLength (expect : Nat)
  | ParseIntError (kind : IntErrorKind)
  deriving DecidableEq, Repr

/-- `strip_0x_bytes`: drop a leading `b"0x"` (bytes `0x30 0x78`) if present. -/
def strip_0x_bytes (hex : List Nat) : List Nat :=
  match hex with
  | 0x30 :: 0x78 :: rest => rest
  | _ => hex

/-- `strip_0x` on `&str` behaves identically on the underlying bytes. -/
def strip_0x (hex : List Nat) : List Nat :=
  strip_0x_bytes hex

/-- `is_hex_ascii`: OR with 0b10_0000 ("convert to lowercase"), then test
membership in `b'0'..=b'9' | b'a'..=b'f'`. -/
def is_hex_ascii (byte : Nat) : Bool :=
  let b := byte ||| 0b100000
  (0x30 ≤ b && b ≤ 0x39) || (0x61 ≤ b && b ≤ 0x66)

/-- `hex_ascii2digit`: same lowercasing trick, mapping to the 4-bit value. -/
def hex_ascii2digit (hex_ascii : Nat) : Option Nat :=
  let b := hex_ascii ||| 0b100000
  if 0x30 ≤ b ∧ b ≤ 0x39 then some (b - 0x30)
  else if 0x61 ≤ b ∧ b ≤ 0x66 then some (b - 0x61 + 10)
  else none

/-- `hex2byte`: checked pairwise decode; each argument is a byte paired
with its index, used in the `InvalidCharacter` error. -/
def hex2byte (hex_ascii_1 : Nat × Nat) (hex_ascii_2 : Nat × Nat) : Except Error Nat :=
  match hex_ascii2digit hex_ascii_1.1 with
  | none => .error (.InvalidCharacter hex_ascii_1.1 hex_ascii_1.2)
  | some d1 =>
    match hex_ascii2digit hex_ascii_2.1 with
    | none => .error (.InvalidCharacter hex_ascii_2.1 hex_ascii_2.2)
    | some d2 => .ok ((d1 <<< 4) ||| d2)

/-- `hex2byte_unchecked`: both `unwrap`s become the `Option` monad. -/
def hex2byte_unchecked (hex_ascii_1 : Nat) (hex_ascii_2 : Nat) : Option Nat :=
  match hex_ascii2digit hex_ascii_1, hex_ascii2digit hex_ascii_2 with
  | some d1, some d2 => some ((d1 <<< 4) ||| d2)
  | _, _ => none

/-- The decoding loop of `hex2bytes`: `for i in (0..hex.len()).step_by(2)`,
pushing `hex2byte((&hex[i], i), (&hex[i+1], i+1))?`.  `i` is the absolute
index of the head of `l` in the prefix-stripped input.  The caller has
already checked that the length is even, so the singleton case is
unreachable. -/
def hex2bytesLoop : List Nat → Nat → Except Error (List Nat)
  | [], _ => .ok []
  | [_], _ => .ok []
  | a :: b :: rest, i =>
    match hex2byte (a, i) (b, i + 1) with
    | .error e => .error e
    | .ok byte =>
      match hex2bytesLoop rest (i + 2) with
      | .error e => .error e
      | .ok tail => .ok (byte :: tail)

/-- `hex2bytes`: strip the prefix, reject odd lengths, decode pairwise. -/
def hex2bytes (hex : List Nat) : Except Error (List Nat) :=
  let hex := strip_0x_bytes hex
  if hex.length % 2 ≠ 0 then .error .InvalidLength
  else hex2bytesLoop hex 0

/-- Loop of `hex2bytes_unchecked`.  On an odd-length tail the Rust code
indexes `hex[i + 1]` out of bounds and panics (`none`). -/
def hex2bytesUncheckedLoop : List Nat → Option (List Nat)
  | [] => some []
  | [_] => none
  | a :: b :: rest =>
    match hex2byte_unchecked a b with
    | none => none
    | some byte =>
      match hex2bytesUncheckedLoop rest with
      | none => none
      | some tail => some (byte :: tail)

/-- `hex2bytes_unchecked`: strip, then decode with the panicking decoder. -/
def hex2bytes_unchecked (hex : List Nat) : Option (List Nat) :=
  hex2bytesUncheckedLoop (strip_0x_bytes hex)

/-- `char::from_digit(d, 16).unwrap()` for `d < 16`: `'0'..'9'` then
lowercase `'a'..'f'`. -/
def char_from_digit (d : Nat) : Nat :=
  if d < 10 then 0x30 + d else 0x61 + (d - 10)

/-- `bytes2hex`: the prefix string's characters followed by two lowercase
hex characters per byte, high nibble first.  The prefix is given by its
byte sequence (e.g. `[0x30, 0x78]` for `"0x"`). -/
def bytes2hex (pfx : List Nat) (bytes : List Nat) : List Nat :=
  pfx ++ bytes.flatMap (fun byte => [char_from_digit (byte >>> 4), char_from_digit (byte &&& 0xf)])

/-- The write loop of `hex2slice`:
`for (byte, i) in slice.iter_mut().zip((0..hex.len()).step_by(2))`
with `*byte = hex2byte((&hex[i], i), (&hex[i + 1], i + 1))?`.
The first component is the loop's outcome, the second the final contents
of the destination slice.  When the `?` propagates an error, the bytes
already assigned keep their new values and the rest keep their old ones.
`hex2slice` only calls this after checking `hex.length` is even and
equal to `2 * slice.length`, so the cases where one side runs out first
are unreachable there. -/
def hex2sliceWriteLoop : List Nat → List Nat → Nat → Except Error Unit × List Nat
  | [], _, _ => (.ok (), [])
  | s :: srest, [], _ => (.ok (), s :: srest)
  | s :: srest, [_], _ => (.ok (), s :: srest)
  | s :: srest, a :: b :: hrest, i =>
    match hex2byte (a, i) (b, i + 1) with
    | .error e => (.error e, s :: srest)
    | .ok byte =>
      match hex2sliceWriteLoop srest hrest (i + 2) with
      | (r, rest) => (r, byte :: rest)

/-- `hex2slice`: strip, reject odd length, reject a decoded length
(`hex.len() >> 1`) different from the destination length, then decode in
place.  The first component is the returned `Result` (on success the
returned view is the final slice), the second the final contents of the
caller's destination slice. -/
def hex2slice (hex : List Nat) (slice : List Nat) : Except Error (List Nat) × List Nat :=
  let hex := strip_0x_bytes hex
  if hex.length % 2 ≠ 0 then (.error .InvalidLength, slice)
  else
    let expected_len := hex.length >>> 1
    if expected_len ≠ slice.length then (.error (.MismatchedLength expected_len), slice)
    else
      match hex2sliceWriteLoop slice hex 0 with
      | (.ok _, final) => (.ok final, final)
      | (.error e, final) => (.error e, final)

/-- Loop of `hex2slice_unchecked`: the same zip, but with
`hex2byte_unchecked`.  The zip stops as soon as either the slice or the
index iterator is exhausted; reading `hex[i + 1]` past the end panics
(`none`), as does an invalid digit.  Result: the final slice contents. -/
def hex2sliceUncheckedLoop : List Nat → List Nat → Option (List Nat)
  | [], _ => some []
  | s :: srest, [] => some (s :: srest)
  | _ :: _, [_] => none
  | _ :: srest, a :: b :: hrest =>
    match hex2byte_unchecked a b with
    | none => none
    | some byte =>
      match hex2sliceUncheckedLoop srest hrest with
      | none => none
      | some rest => some (byte :: rest)

/-- `hex2slice_unchecked`: no length checks at all; just strip and zip. -/
def hex2slice_unchecked (hex : List Nat) (slice : List Nat) : Option (List Nat) :=
  hex2sliceUncheckedLoop slice (strip_0x_bytes hex)

/-- `slice2array::<N>`: `slice.try_into()` succeeds iff the length is
exactly `N`; otherwise `MismatchedLength { expect: N }`.  The fixed-size
array is modelled as the (length-`N`) list of its elements. -/
def slice2array (N : Nat) (slice : List Nat) : Except Error (List Nat) :=
  if slice.length = N then .ok slice else .error (.MismatchedLength N)

/-- `slice2array_unchecked`: `slice2array(slice).unwrap()`. -/
def slice2array_unchecked (N : Nat) (slice : List Nat) : Option (List Nat) :=
  match slice2array N slice with
  | .ok a => some a
  | .error _ => none

/-- `vec2array::<N>`: `vec.try_into()`, same success condition. -/
def vec2array (N : Nat) (vec : List Nat) : Except Error (List Nat) :=
  if vec.length = N then .ok vec else .error (.MismatchedLength N)

/-- `vec2array_unchecked`: `vec2array(vec).unwrap()`. -/
def vec2array_unchecked (N : Nat) (vec : List Nat) : Option (List Nat) :=
  match vec2array N vec with
  | .ok a => some a
  | .error _ => none

/-- `hex2array::<N>`: `vec2array(hex2bytes(hex)?)`. -/
def hex2array (N : Nat) (hex : List Nat) : Except Error (List Nat) :=
  match hex2bytes hex with
  | .error e => .error e
  | .ok vec => vec2array N vec

/-- `char::to_digit(16)` on a byte: `'0'-'9'`, `'a'-'f'`, `'A'-'F'`,
with exact range checks (no lowercasing trick here). -/
def char_to_digit16 (c : Nat) : Option Nat :=
  if 0x30 ≤ c ∧ c ≤ 0x39 then some (c - 0x30)
  else if 0x61 ≤ c ∧ c ≤ 0x66 then some (c - 0x61 + 10)
  else if 0x41 ≤ c ∧ c ≤ 0x46 then some (c - 0x41 + 10)
  else none

/-- Digit-accumulation loop of `from_str_radix` for an unsigned type with
maximum value `max`: per digit, `to_digit` (else `InvalidDigit`), then
`checked_mul`/`checked_add` against `max` (else `PosOverflow`). -/
def fromStrRadix16Loop (max : Nat) : Nat → List Nat → Except IntErrorKind Nat
  | acc, [] => .ok acc
  | acc, c :: rest =>
    match char_to_digit16 c with
    | none => .error .InvalidDigit
    | some d =>
      if acc * 16 + d > max then .error .PosOverflow
      else fromStrRadix16Loop max (acc * 16 + d) rest

/-- `<unsigned>::from_str_radix(src, 16)` with maximum value `max`:
empty input is `Empty`; a bare sign is `InvalidDigit`; a leading `+` is
skipped; `-` on an unsigned type is `InvalidDigit`; then the digit loop. -/
def from_str_radix16 (max : Nat) (src : List Nat) : Except IntErrorKind Nat :=
  match src with
  | [] => .error .Empty
  | c :: rest =>
    if c = 0x2b then
      match rest with
      | [] => .error .InvalidDigit
      | _ => fromStrRadix16Loop max 0 rest
    else if c = 0x2d then .error .InvalidDigit
    else fromStrRadix16Loop max 0 (c :: rest)

/-- `impl_num_from_hex!`'s `try_from_hex` for an unsigned type with
maximum value `max`: strip `0x`, then
`from_str_radix(hex, 16).map_err(Error::ParseIntError)`. -/
def try_from_hex (max : Nat) (hex : List Nat) : Except Error Nat :=
  match from_str_radix16 max (strip_0x hex) with
  | .ok v => .ok v
  | .error k => .error (.ParseIntError k)

/-- Positive-accumulation loop of `from_str_radix` for a signed type
with maximum value `max`: per digit, `to_digit` (else `InvalidDigit`),
then `checked_mul`/`checked_add` against `max` (else `PosOverflow`). -/
def fromStrRadix16LoopPos (max : Int) : Int → List Nat → Except IntErrorKind Int
  | acc, [] => .ok acc
  | acc, c :: rest =>
    match char_to_digit16 c with
    | none => .error .InvalidDigit
    | some d =>
      if acc * 16 + (d : Int) > max then .error .PosOverflow
      else fromStrRadix16LoopPos max (acc * 16 + (d : Int)) rest

/-- Negative-accumulation loop (after a leading `-`) for a signed type
with minimum value `min`: `checked_mul`/`checked_sub` against `min`
(else `NegOverflow`). -/
def fromStrRadix16LoopNeg (min : Int) : Int → List Nat → Except IntErrorKind Int
  | acc, [] => .ok acc
  | acc, c :: rest =>
    match char_to_digit16 c with
    | none => .error .InvalidDigit
    | some d =>
      if acc * 16 - (d : Int) < min then .error .NegOverflow
      else fromStrRadix16LoopNeg min (acc * 16 - (d : Int)) rest

/-- `<signed>::from_str_radix(src, 16)` for a signed type (`isize`,
`i8` .. `i128`) with minimum value `min` and maximum value `max`: empty
input is `Empty`; a bare sign is `InvalidDigit`; a leading `+` keeps the
positive accumulation, a leading `-` selects the negative one. -/
def from_str_radix16_signed (min max : Int) (src : List Nat) : Except IntErrorKind Int :=
  match src with
  | [] => .error .Empty
  | c :: rest =>
    if c = 0x2b then
      match rest with
      | [] => .error .InvalidDigit
      | _ => fromStrRadix16LoopPos max 0 rest
    else if c = 0x2d then
      match rest with
      | [] => .error .InvalidDigit
      | _ => fromStrRadix16LoopNeg min 0 rest
    else fromStrRadix16LoopPos max 0 (c :: rest)

/-- `impl_num_from_hex!`'s `try_from_hex` for a signed type with minimum
`min` and maximum `max`: strip `0x`, then
`from_str_radix(hex, 16).map_err(Error::ParseIntError)`. -/
def try_from_hex_signed (min max : Int) (hex : List Nat) : Except Error Int :=
  match from_str_radix16_signed min max (strip_0x hex) with
  | .ok v => .ok v
  | .error k => .error (.ParseIntError k)

/-- The 16 hex digit characters of the spec: `'0'-'9'`, `'a'-'f'`,
`'A'-'F'` (case-insensitive), as byte values.  Used to state validity of
hex text; the code's own classifier is `hex_ascii2digit`. -/
def specHexDigit (c : Nat) : Bool :=
  (0x30 ≤ c && c ≤ 0x39) || (0x61 ≤ c && c ≤ 0x66) || (0x41 ≤ c && c ≤ 0x46)

/-! ## Helper lemmas -/

/-- Exhaustive case analysis of the checked pairwise decoder. -/
theorem hex2byte_cases (a i b j : Nat) :
    (∃ d1 d2, hex_ascii2digit a = some d1 ∧ hex_ascii2digit b = some d2 ∧
      hex2byte (a, i) (b, j) = .ok ((d1 <<< 4) ||| d2)) ∨
    (hex_ascii2digit a = none ∧ hex2byte (a, i) (b, j) = .error (.InvalidCharacter a i)) ∨
    (∃ d1, hex_ascii2digit a = some d1 ∧ hex_ascii2digit b = none ∧
      hex2byte (a, i) (b, j) = .error (.InvalidCharacter b j)) := by
  cases ha : hex_ascii2digit a with
  | none => exact .inr (.inl ⟨rfl, by simp [hex2byte, ha]⟩)
  | some d1 =>
    cases hb : hex_ascii2digit b with
    | none => exact .inr (.inr ⟨d1, rfl, rfl, by simp [hex2byte, ha, hb]⟩)
    | some d2 => exact .inl ⟨d1, d2, rfl, rfl, by simp [hex2byte, ha, hb]⟩

/-- Any error produced by the decoding loop of `hex2bytes` is an
`InvalidCharacter` whose index is absolute (the starting index `i0` plus
the offset inside the remaining list), pointing at a byte that is not
accepted by `hex_ascii2digit`. -/
theorem hex2bytesLoop_error :
    ∀ (l : List Nat) (i0 : Nat), ∀ e, hex2bytesLoop l i0 = .error e →
      ∃ c i, e = .InvalidCharacter c i ∧ i0 ≤ i ∧ l[i - i0]? = some c ∧
        hex_ascii2digit c = none := by
  intro l i0
  induction l, i0 using hex2bytesLoop.induct with
  | case1 i0 => intro e h; simp [hex2bytesLoop] at h
  | case2 a i0 => intro e h; simp [hex2bytesLoop] at h
  | case3 a b rest i0 e2 he =>
    intro e h
    rw [hex2bytesLoop, he] at h
    cases h
    rcases hex2byte_cases a i0 b (i0 + 1) with
      ⟨d1, d2, _, _, hok⟩ | ⟨ha, herr⟩ | ⟨d1, _, hb, herr⟩
    · rw [hok] at he; cases he
    · rw [herr] at he
      cases he
      exact ⟨a, i0, rfl, Nat.le_refl _, by simp, ha⟩
    · rw [herr] at he
      cases he
      exact ⟨b, i0 + 1, rfl, by omega, by simp, hb⟩
  | case4 a b rest i0 byte hok e2 he ih =>
    intro e h
    rw [hex2bytesLoop, hok, he] at h
    cases h
    obtain ⟨c, i, rfl, h1, h2, h3⟩ := ih e2 he
    refine ⟨c, i, rfl, by omega, ?_, h3⟩
    have hsplit : i - i0 = (i - (i0 + 2)) + 1 + 1 := by omega
    rw [hsplit]
    simpa using h2
  | case5 a b rest i0 byte hok tail hrec ih =>
    intro e h
    rw [hex2bytesLoop, hok, hrec] at h
    cases h

/-- Every error of `hex2bytes` is `InvalidLength` or `InvalidCharacter`. -/
theorem hex2bytes_error_shape (h : List Nat) (e : Error)
    (hh : hex2bytes h = .error e) :
    e = .InvalidLength ∨ ∃ c i, e = .InvalidCharacter c i := by
  rw [hex2bytes] at hh
  by_cases hlen : (strip_0x_bytes h).length % 2 ≠ 0
  · rw [if_pos hlen] at hh
    cases hh
    exact .inl rfl
  · rw [if_neg hlen] at hh
    obtain ⟨c, i, rfl, -, -, -⟩ := hex2bytesLoop_error _ 0 e hh
    exact .inr ⟨c, i, rfl⟩

/-- When `hex2bytes` reports `InvalidCharacter {character, index}`, the
index refers to the prefix-stripped input: the stripped input holds that
character there, and it is not a digit accepted by the decoder. -/
theorem hex2bytes_invalidChar (h : List Nat) (c i : Nat)
    (hh : hex2bytes h = .error (.InvalidCharacter c i)) :
    (strip_0x_bytes h)[i]? = some c ∧ hex_ascii2digit c = none := by
  rw [hex2bytes] at hh
  by_cases hlen : (strip_0x_bytes h).length % 2 ≠ 0
  · rw [if_pos hlen] at hh
    cases hh
  · rw [if_neg hlen] at hh
    obtain ⟨c2, i2, heq, -, h2, h3⟩ := hex2bytesLoop_error _ 0 _ hh
    cases heq
    simpa using ⟨h2, h3⟩

/-! ## Claims -/

/-- Claim C1 (amended): when `hex2bytes` reports
`InvalidCharacter {character, index}`, the index is counted from the
start of the prefix-stripped digit sequence (prefix excluded), and it
points at the offending non-digit byte there; in particular
`hex2bytes("0xzz")` is `Err(InvalidCharacter {character: 'z', index: 0})`
(`"0xzz"` is `[0x30, 0x78, 0x7a, 0x7a]`, `'z'` is `0x7a`). -/
theorem claim_C1_invalid_char_index :
    (∀ (h : List Nat) (c i : Nat), hex2bytes h = .error (.InvalidCharacter c i) →
      (strip_0x_bytes h)[i]? = some c ∧ hex_ascii2digit c = none) ∧
    hex2bytes [0x30, 0x78, 0x7a, 0x7a] = .error (.InvalidCharacter 0x7a 0) :=
  ⟨hex2bytes_invalidChar, rfl⟩

/-- Claim C1, witness: the general part applied to the input `"0xzz"`
at character `'z'` and index 0. -/
theorem claim_C1_witness :
    (strip_0x_bytes [0x30, 0x78, 0x7a, 0x7a])[0]? = some 0x7a ∧
      hex_ascii2digit 0x7a = none :=
  claim_C1_invalid_char_index.1 [0x30, 0x78, 0x7a, 0x7a] 0x7a 0 rfl

/-- Claim C1, counterexample to the claim as stated: on `"0xzz"` the
reported index is not 2 (the absolute position including the prefix). -/
theorem claim_C1_counterexample :
    hex2bytes [0x30, 0x78, 0x7a, 0x7a] ≠ .error (.InvalidCharacter 0x7a 2) := by
  decide

/-- Claim C5 is about the code being wrong: the spec's 16 hex digit
characters are the only accepted bytes, but because `hex_ascii2digit`
forces the `0x20` bit before its range test, the control bytes
`0x10..=0x19` are also accepted as digits 0–9.  Concretely, the two-byte
input `[0x10, 0x10]` (neither byte a hex digit character, i.e.
`specHexDigit 0x10 = false`) decodes to `Ok([0x00])` instead of
`Err(InvalidCharacter)`. -/
theorem claim_C5_accepts_non_digit :
    hex2bytes [0x10, 0x10] = .ok [0] ∧
    hex_ascii2digit 0x10 = some 0 ∧
    specHexDigit 0x10 = false :=
  ⟨rfl, rfl, rfl⟩

/-- Claim C8: `hex2bytes` returns `InvalidLength` exactly when the digit
count after stripping the optional prefix is odd, and the check precedes
decoding, so `"0xabc"` and even an input whose digits are all invalid
(`"0xzzz"`) report `InvalidLength`. -/
theorem claim_C8_odd_length :
    (∀ h : List Nat, hex2bytes h = .error .InvalidLength ↔
      (strip_0x_bytes h).length % 2 = 1) ∧
    hex2bytes [0x30, 0x78, 0x61, 0x62, 0x63] = .error .InvalidLength ∧
    hex2bytes [0x30, 0x78, 0x7a, 0x7a, 0x7a] = .error .InvalidLength := by
  refine ⟨fun h => ⟨fun hh => ?_, fun hodd => ?_⟩, rfl, rfl⟩
  · by_contra hne
    rw [hex2bytes, if_neg (by omega)] at hh
    obtain ⟨c, i, heq, -, -, -⟩ := hex2bytesLoop_error _ 0 _ hh
    cases heq
  · rw [hex2bytes, if_pos (by omega)]

/-- Claim C4 (amended): `MismatchedLength {expect}` carries the fixed
array size `N` for the array conversions (`vec2array`, `hex2array`), but
for `hex2slice` it carries the decoded length (stripped digit count
halved), not the destination buffer size. -/
theorem claim_C4_mismatched_expect :
    (∀ (N : Nat) (v : List Nat), v.length ≠ N →
      vec2array N v = .error (.MismatchedLength N)) ∧
    (∀ (N : Nat) (sl : List Nat), sl.length ≠ N →
      slice2array N sl = .error (.MismatchedLength N)) ∧
    hex2array 8 [0x30, 0x78, 0x30, 0x30] = .error (.MismatchedLength 8) ∧
    (∀ (N : Nat) (h : List Nat) (e : Nat),
      hex2array N h = .error (.MismatchedLength e) → e = N) ∧
    (∀ (hex slice : List Nat),
      (strip_0x_bytes hex).length % 2 = 0 →
      (strip_0x_bytes hex).length >>> 1 ≠ slice.length →
      hex2slice hex slice
        = (.error (.MismatchedLength ((strip_0x_bytes hex).length >>> 1)), slice)) := by
  refine ⟨fun N v hv => ?_, fun N sl hsl => ?_, rfl, fun N h e hh => ?_,
    fun hex slice he hm => ?_⟩
  · simp only [vec2array]
    rw [if_neg hv]
  · simp only [slice2array]
    rw [if_neg hsl]
  · rw [hex2array] at hh
    cases hb : hex2bytes h with
    | error e2 =>
      rw [hb] at hh
      cases hh
      rcases hex2bytes_error_shape h _ hb with heq | ⟨c, i, heq⟩ <;> cases heq
    | ok v =>
      rw [hb] at hh
      simp only [vec2array] at hh
      by_cases hv : v.length = N
      · rw [if_pos hv] at hh; cases hh
      · rw [if_neg hv] at hh
        cases hh
        rfl
  · simp only [hex2slice]
    rw [if_neg (by omega), if_pos hm]

/-- Claim C4, witness: `vec2array::<8>` and `slice2array::<8>` on
1-byte inputs report `expect: 8`; `hex2slice("0x00", ..)` into a 2-byte
destination reports `expect: 1` (the decoded length, not 2). -/
theorem claim_C4_witness :
    vec2array 8 [0] = .error (.MismatchedLength 8) ∧
    slice2array 8 [0] = .error (.MismatchedLength 8) ∧
    hex2slice [0x30, 0x78, 0x30, 0x30] [9, 9]
      = (.error (.MismatchedLength 1), [9, 9]) :=
  ⟨claim_C4_mismatched_expect.1 8 [0] (by decide),
   claim_C4_mismatched_expect.2.1 8 [0] (by decide),
   claim_C4_mismatched_expect.2.2.2.2 [0x30, 0x78, 0x30, 0x30] [9, 9]
    (by decide) (by decide)⟩

/-- Claim C4, counterexample to the claim as stated: for `hex2slice` the
`expect` field is 1 (the decoded length) while the destination buffer
size is 2. -/
theorem claim_C4_counterexample :
    (hex2slice [0x30, 0x78, 0x30, 0x30] [9, 9]).1 = .error (.MismatchedLength 1) ∧
      (1 : Nat) ≠ 2 :=
  ⟨rfl, by decide⟩

/-- Decoding the encoded high nibble of a byte gives it back. -/
theorem hexchar_hi_digit :
    ∀ x < 256, hex_ascii2digit (char_from_digit (x >>> 4)) = some (x >>> 4) := by decide

/-- Decoding the encoded low nibble of a byte gives it back. -/
theorem hexchar_lo_digit :
    ∀ x < 256, hex_ascii2digit (char_from_digit (x &&& 0xf)) = some (x &&& 0xf) := by decide

/-- Reassembling the two nibbles of a byte gives the byte back. -/
theorem nibble_recompose : ∀ x < 256, ((x >>> 4) <<< 4) ||| (x &&& 0xf) = x := by decide

/-- The checked decoder undoes the two-character encoding of a byte. -/
theorem hex2byte_enc (x i j : Nat) (hx : x < 256) :
    hex2byte (char_from_digit (x >>> 4), i) (char_from_digit (x &&& 0xf), j) = .ok x := by
  have h1 := hexchar_hi_digit x hx
  have h2 := hexchar_lo_digit x hx
  simp [hex2byte, h1, h2, nibble_recompose x hx]

/-- The encoded form of a buffer has twice its length. -/
theorem encLength (l : List Nat) :
    (l.flatMap fun byte =>
      [char_from_digit (byte >>> 4), char_from_digit (byte &&& 0xf)]).length
      = 2 * l.length := by
  induction l with
  | nil => rfl
  | cons x xs ih => simp [List.flatMap_cons, ih]; omega

/-- The decoding loop undoes the pairwise encoding of a buffer of bytes. -/
theorem encLoop (l : List Nat) : ∀ i : Nat, (∀ x ∈ l, x < 256) →
    hex2bytesLoop (l.flatMap fun byte =>
      [char_from_digit (byte >>> 4), char_from_digit (byte &&& 0xf)]) i = .ok l := by
  induction l with
  | nil => intro i _; rfl
  | cons x xs ih =>
    intro i h
    simp only [List.flatMap_cons, List.cons_append, List.nil_append]
    rw [hex2bytesLoop, hex2byte_enc x i (i + 1) (h x (List.mem_cons_self x xs)),
      ih (i + 2) (fun y hy => h y (List.mem_cons_of_mem x hy))]

/-- Claim C2: encoding any byte buffer with the `"0x"` prefix and then
decoding recovers exactly the original buffer:
`hex2bytes(bytes2hex("0x", b)) == Ok(b)`. -/
theorem claim_C2_roundtrip (b : List Nat) (hb : ∀ x ∈ b, x < 256) :
    hex2bytes (bytes2hex [0x30, 0x78] b) = .ok b := by
  have hstrip : strip_0x_bytes (bytes2hex [0x30, 0x78] b)
      = b.flatMap fun byte =>
          [char_from_digit (byte >>> 4), char_from_digit (byte &&& 0xf)] := rfl
  simp only [hex2bytes, hstrip, encLength]
  rw [if_neg (by omega)]
  exact encLoop b 0 hb

/-- Claim C2, witness: the round trip on the buffer `[0x4c, 0x00, 0xff]`. -/
theorem claim_C2_witness :
    hex2bytes (bytes2hex [0x30, 0x78] [0x4c, 0x00, 0xff]) = .ok [0x4c, 0x00, 0xff] :=
  claim_C2_roundtrip [0x4c, 0x00, 0xff] (by decide)

/-- A spec hex digit is below 256. -/
theorem specHexDigit_lt (c : Nat) (h : specHexDigit c = true) : c < 256 := by
  simp only [specHexDigit, Bool.or_eq_true, Bool.and_eq_true, decide_eq_true_eq] at h
  omega

/-- Bounded form: every spec hex digit is accepted by the code's
`hex_ascii2digit`. -/
theorem specHexDigit_isSome :
    ∀ c < 256, specHexDigit c = true → (hex_ascii2digit c).isSome = true := by decide

/-- Every spec hex digit decodes to some value. -/
theorem specHexDigit_decodes (c : Nat) (h : specHexDigit c = true) :
    ∃ d, hex_ascii2digit c = some d :=
  Option.isSome_iff_exists.mp (specHexDigit_isSome c (specHexDigit_lt c h) h)

/-- If the unchecked pairwise decoder succeeds, the checked one agrees
(for any indices). -/
theorem hex2byte_of_unchecked (a b v i j : Nat) (h : hex2byte_unchecked a b = some v) :
    hex2byte (a, i) (b, j) = .ok v := by
  rcases hex2byte_cases a i b j with ⟨d1, d2, h1, h2, hok⟩ | ⟨h1, _⟩ | ⟨d1, h1, h2, _⟩
  · rw [hex2byte_unchecked, h1, h2] at h
    cases h
    exact hok
  · rw [hex2byte_unchecked, h1] at h
    cases h
  · rw [hex2byte_unchecked, h1, h2] at h
    cases h

/-- On an even-length list of valid digits the checked and unchecked
decoding loops both succeed, with the same output. -/
theorem agreeLoop :
    ∀ l : List Nat, (∀ c ∈ l, specHexDigit c = true) → l.length % 2 = 0 →
      ∀ i, ∃ r, hex2bytesLoop l i = .ok r ∧ hex2bytesUncheckedLoop l = some r := by
  intro l
  induction l using hex2bytesUncheckedLoop.induct with
  | case1 => exact fun _ _ _ => ⟨[], rfl, rfl⟩
  | case2 a => intro _ hlen; simp at hlen
  | case3 a b rest hnone =>
    intro hdig _ _
    obtain ⟨d1, hd1⟩ := specHexDigit_decodes a (hdig a (by simp))
    obtain ⟨d2, hd2⟩ := specHexDigit_decodes b (hdig b (by simp))
    rw [hex2byte_unchecked, hd1, hd2] at hnone
    cases hnone
  | case4 a b rest byte hsome hrec ih =>
    intro hdig hlen i
    obtain ⟨r, -, hu⟩ :=
      ih (fun c hc => hdig c (by simp [hc])) (by simp at hlen; omega) (i + 2)
    rw [hrec] at hu
    cases hu
  | case5 a b rest byte hsome tail hrec ih =>
    intro hdig hlen i
    obtain ⟨r, hc, hu⟩ :=
      ih (fun c hc => hdig c (by simp [hc])) (by simp at hlen; omega) (i + 2)
    rw [hrec] at hu
    cases hu
    refine ⟨byte :: tail, ?_, ?_⟩
    · rw [hex2bytesLoop, hex2byte_of_unchecked a b byte i (i + 1) hsome, hc]
    · rw [hex2bytesUncheckedLoop, hsome, hrec]

/-- Claim C6: for every valid hex text (optional `"0x"` prefix followed
by an even number of case-insensitive hex digit characters) the checked
and unchecked decoders agree:
`hex2bytes(h) == Ok(hex2bytes_unchecked(h))`. -/
theorem claim_C6_checked_unchecked_agree (h : List Nat)
    (hvalid : ∀ c ∈ strip_0x_bytes h, specHexDigit c = true)
    (heven : (strip_0x_bytes h).length % 2 = 0) :
    ∃ l, hex2bytes h = .ok l ∧ hex2bytes_unchecked h = some l := by
  obtain ⟨r, h1, h2⟩ := agreeLoop (strip_0x_bytes h) hvalid heven 0
  refine ⟨r, ?_, h2⟩
  rw [hex2bytes]
  rw [if_neg (by omega)]
  exact h1

/-- Claim C6, witness: on `"0xAb"` both decoders produce `[0xab]`. -/
theorem claim_C6_witness :
    hex2bytes [0x30, 0x78, 0x41, 0x62] = .ok [0xab] ∧
    hex2bytes_unchecked [0x30, 0x78, 0x41, 0x62] = some [0xab] := by
  obtain ⟨l, h1, h2⟩ :=
    claim_C6_checked_unchecked_agree [0x30, 0x78, 0x41, 0x62] (by decide) (by decide)
  have h3 : Except.ok (ε := Error) [0xab] = Except.ok l :=
    (rfl : hex2bytes [0x30, 0x78, 0x41, 0x62] = .ok [0xab]).symm.trans h1
  cases h3
  exact ⟨h1, h2⟩

/-- The unchecked decoding loop panics on an odd-length list. -/
theorem hex2bytesUncheckedLoop_odd :
    ∀ l : List Nat, l.length % 2 = 1 → hex2bytesUncheckedLoop l = none := by
  intro l
  induction l using hex2bytesUncheckedLoop.induct with
  | case1 => intro hlen; simp at hlen
  | case2 a => intro _; rfl
  | case3 a b rest hnone => intro _; rw [hex2bytesUncheckedLoop, hnone]
  | case4 a b rest byte hsome hrec ih =>
    intro _
    rw [hex2bytesUncheckedLoop, hsome, hrec]
  | case5 a b rest byte hsome tail hrec ih =>
    intro hlen
    rw [ih (by simp at hlen; omega)] at hrec
    cases hrec

/-- The unchecked decoding loop panics when the list contains a byte the
digit classifier rejects. -/
theorem hex2bytesUncheckedLoop_invalid :
    ∀ l : List Nat, ∀ c ∈ l, hex_ascii2digit c = none →
      hex2bytesUncheckedLoop l = none := by
  intro l
  induction l using hex2bytesUncheckedLoop.induct with
  | case1 => intro c hc _; simp at hc
  | case2 a => intro _ _ _; rfl
  | case3 a b rest hnone => intro _ _ _; rw [hex2bytesUncheckedLoop, hnone]
  | case4 a b rest byte hsome hrec ih =>
    intro _ _ _
    rw [hex2bytesUncheckedLoop, hsome, hrec]
  | case5 a b rest byte hsome tail hrec ih =>
    intro c hc hcnone
    rw [hex2byte_unchecked] at hsome
    rcases List.mem_cons.mp hc with rfl | hc2
    · rw [hcnone] at hsome
      cases hsome
    rcases List.mem_cons.mp hc2 with rfl | hc3
    · rw [hcnone] at hsome
      cases hd : hex_ascii2digit a <;> rw [hd] at hsome <;> cases hsome
    · rw [ih c hc3 hcnone] at hrec
      cases hrec

/-- When the stripped digits decode (to `d`) under the unchecked
decoder, the zip of `hex2slice_unchecked` never panics: it writes the
first `min(d.length, slice.length)` decoded bytes and leaves the rest of
the destination unchanged — `d.take slice.length ++ slice.drop d.length`. -/
theorem hex2sliceUncheckedLoop_ofDecode :
    ∀ hx d : List Nat, hex2bytesUncheckedLoop hx = some d →
      ∀ slice : List Nat,
        hex2sliceUncheckedLoop slice hx = some (d.take slice.length ++ slice.drop d.length) := by
  intro hx
  induction hx using hex2bytesUncheckedLoop.induct with
  | case1 =>
    intro d h slice
    cases h
    cases slice with
    | nil => rfl
    | cons s srest => rfl
  | case2 a => intro d h slice; cases h
  | case3 a b rest hnone =>
    intro d h slice
    rw [hex2bytesUncheckedLoop, hnone] at h
    cases h
  | case4 a b rest byte hsome hrec ih =>
    intro d h slice
    rw [hex2bytesUncheckedLoop, hsome, hrec] at h
    cases h
  | case5 a b rest byte hsome tail hrec ih =>
    intro d h slice
    rw [hex2bytesUncheckedLoop, hsome, hrec] at h
    cases h
    cases slice with
    | nil => rfl
    | cons s srest =>
      rw [hex2sliceUncheckedLoop, hsome, ih tail hrec srest]
      simp

/-- Claim C3 (amended): `slice2array_unchecked` and `vec2array_unchecked`
abort on a length mismatch, and `hex2bytes_unchecked` aborts on an odd
digit count or an invalid digit; but `hex2slice_unchecked` does not abort
when the stripped digit count divided by two differs from the destination
length — whenever the stripped digits decode (to `d`), it silently
returns `d.take slice.length ++ slice.drop d.length`, writing only
`min(pairs, destination)` bytes: extra pairs are truncated, a longer
destination keeps its tail. -/
theorem claim_C3_unchecked_abort :
    (∀ (N : Nat) (slice : List Nat), slice.length ≠ N →
      slice2array_unchecked N slice = none) ∧
    (∀ (N : Nat) (vec : List Nat), vec.length ≠ N →
      vec2array_unchecked N vec = none) ∧
    (∀ h : List Nat, (strip_0x_bytes h).length % 2 = 1 →
      hex2bytes_unchecked h = none) ∧
    (∀ h : List Nat, ∀ c ∈ strip_0x_bytes h, hex_ascii2digit c = none →
      hex2bytes_unchecked h = none) ∧
    (∀ hex slice d : List Nat, hex2bytes_unchecked hex = some d →
      hex2slice_unchecked hex slice
        = some (d.take slice.length ++ slice.drop d.length)) := by
  refine ⟨fun N slice hs => ?_, fun N vec hv => ?_, fun h hodd => ?_,
    fun h c hc hcnone => ?_, fun hex slice d hd => ?_⟩
  · simp only [slice2array_unchecked, slice2array]
    rw [if_neg hs]
  · simp only [vec2array_unchecked, vec2array]
    rw [if_neg hv]
  · exact hex2bytesUncheckedLoop_odd _ hodd
  · exact hex2bytesUncheckedLoop_invalid _ c hc hcnone
  · exact hex2sliceUncheckedLoop_ofDecode _ d hd slice

/-- Claim C3, witness: `slice2array_unchecked::<8>` and
`vec2array_unchecked::<8>` on 1-element inputs panic; `hex2bytes_unchecked`
panics on `"0xabc"` (odd) and on `"0xzz"` (invalid digit `'z'`); and
`hex2slice_unchecked("0xffff", [7])` silently truncates to one byte. -/
theorem claim_C3_witness :
    slice2array_unchecked 8 [0] = none ∧
    vec2array_unchecked 8 [0] = none ∧
    hex2bytes_unchecked [0x30, 0x78, 0x61, 0x62, 0x63] = none ∧
    hex2bytes_unchecked [0x30, 0x78, 0x7a, 0x7a] = none ∧
    hex2slice_unchecked [0x30, 0x78, 0x66, 0x66, 0x66, 0x66] [7]
      = some ([0xff, 0xff].take 1 ++ ([7] : List Nat).drop 2) :=
  ⟨claim_C3_unchecked_abort.1 8 [0] (by decide),
   claim_C3_unchecked_abort.2.1 8 [0] (by decide),
   claim_C3_unchecked_abort.2.2.1 [0x30, 0x78, 0x61, 0x62, 0x63] (by decide),
   claim_C3_unchecked_abort.2.2.2.1 [0x30, 0x78, 0x7a, 0x7a] 0x7a (by decide) (by decide),
   claim_C3_unchecked_abort.2.2.2.2 [0x30, 0x78, 0x66, 0x66, 0x66, 0x66] [7] [0xff, 0xff] rfl⟩

/-- Claim C3, counterexample to the claim as stated: `hex2slice_unchecked`
with a stripped digit count (4, so 2 decoded bytes) different from the
destination length (1) does not abort; it silently returns truncated
output. -/
theorem claim_C3_counterexample :
    hex2slice_unchecked [0x30, 0x78, 0x66, 0x66, 0x66, 0x66] [0] ≠ none ∧
    hex2slice_unchecked [0x30, 0x78, 0x66, 0x66, 0x66, 0x66] [0] = some [0xff] :=
  ⟨by decide, rfl⟩

/-- Any error produced by the write loop of `hex2slice` is an
`InvalidCharacter`. -/
theorem hex2sliceWriteLoop_error_shape :
    ∀ (slice hx : List Nat) (i : Nat) (e : Error),
      (hex2sliceWriteLoop slice hx i).1 = .error e → ∃ c j, e = .InvalidCharacter c j := by
  intro slice hx i
  induction slice, hx, i using hex2sliceWriteLoop.induct with
  | case1 hx i => intro e h; cases h
  | case2 s srest i => intro e h; cases h
  | case3 s srest a i => intro e h; cases h
  | case4 s srest a b hrest i e2 herr =>
    intro e h
    rw [hex2sliceWriteLoop, herr] at h
    cases h
    rcases hex2byte_cases a i b (i + 1) with ⟨d1, d2, -, -, hok⟩ | ⟨-, he⟩ | ⟨d1, -, -, he⟩
    · rw [hok] at herr; cases herr
    · rw [he] at herr; cases herr; exact ⟨a, i, rfl⟩
    · rw [he] at herr; cases herr; exact ⟨b, i + 1, rfl⟩
  | case5 s srest a b hrest i byte hok r rest hpair ih =>
    intro e h
    rw [hex2sliceWriteLoop, hok, hpair] at h
    exact ih e (by rw [hpair]; exact h)

/-- Claim C7: whenever `hex2slice` signals `MismatchedLength`, the error
is raised by the length check before the write loop runs, so the caller's
destination buffer is left completely unchanged. -/
theorem claim_C7_no_write_on_mismatch (hex slice : List Nat) (e : Nat)
    (h : (hex2slice hex slice).1 = .error (.MismatchedLength e)) :
    (hex2slice hex slice).2 = slice := by
  rw [hex2slice] at h ⊢
  by_cases hodd : (strip_0x_bytes hex).length % 2 ≠ 0
  · rw [if_pos hodd] at h
    cases h
  · rw [if_neg hodd] at h ⊢
    by_cases hmis : (strip_0x_bytes hex).length >>> 1 ≠ slice.length
    · rw [if_pos hmis]
    · rw [if_neg hmis] at h ⊢
      cases hw : hex2sliceWriteLoop slice (strip_0x_bytes hex) 0 with
      | mk r final =>
        rw [hw] at h
        cases r with
        | ok u => simp at h
        | error e2 =>
          simp at h
          obtain ⟨c, j, heq⟩ := hex2sliceWriteLoop_error_shape slice (strip_0x_bytes hex) 0 e2
            (by rw [hw])
          rw [h] at heq
          cases heq

/-- Claim C7, witness: `hex2slice("0x00", ..)` into a 2-byte destination
signals `MismatchedLength` and leaves the destination `[9, 9]` unchanged. -/
theorem claim_C7_witness :
    (hex2slice [0x30, 0x78, 0x30, 0x30] [9, 9]).2 = [9, 9] :=
  claim_C7_no_write_on_mismatch [0x30, 0x78, 0x30, 0x30] [9, 9] 1 rfl

/-- The digit-accumulation loop of `from_str_radix` never returns a value
above the type maximum. -/
theorem fromStrRadix16Loop_le (max : Nat) :
    ∀ (l : List Nat) (acc : Nat), acc ≤ max →
      ∀ v, fromStrRadix16Loop max acc l = .ok v → v ≤ max := by
  intro l
  induction l with
  | nil =>
    intro acc hacc v h
    rw [fromStrRadix16Loop] at h
    cases h
    exact hacc
  | cons c rest ih =>
    intro acc hacc v h
    rw [fromStrRadix16Loop] at h
    cases hd : char_to_digit16 c with
    | none => rw [hd] at h; cases h
    | some d =>
      rw [hd] at h
      have h2 : (if acc * 16 + d > max then (.error .PosOverflow : Except IntErrorKind Nat)
          else fromStrRadix16Loop max (acc * 16 + d) rest) = .ok v := h
      by_cases hov : acc * 16 + d > max
      · rw [if_pos hov] at h2; cases h2
      · rw [if_neg hov] at h2
        exact ih (acc * 16 + d) (by omega) v h2

/-- `from_str_radix` never returns a value above the type maximum. -/
theorem from_str_radix16_le (max : Nat) (s : List Nat) (v : Nat)
    (h : from_str_radix16 max s = .ok v) : v ≤ max := by
  unfold from_str_radix16 at h
  split at h
  · exact Except.noConfusion h
  · split at h
    · split at h
      · exact Except.noConfusion h
      · exact fromStrRadix16Loop_le max _ 0 (Nat.zero_le _) v h
    · split at h
      · exact Except.noConfusion h
      · exact fromStrRadix16Loop_le max _ 0 (Nat.zero_le _) v h

/-- The positive accumulation loop keeps its result in `[0, max]`. -/
theorem fromStrRadix16LoopPos_bounds (max : Int) :
    ∀ (l : List Nat) (acc : Int), 0 ≤ acc → acc ≤ max →
      ∀ v, fromStrRadix16LoopPos max acc l = .ok v → 0 ≤ v ∧ v ≤ max := by
  intro l
  induction l with
  | nil =>
    intro acc h0 hm v h
    rw [fromStrRadix16LoopPos] at h
    cases h
    exact ⟨h0, hm⟩
  | cons c rest ih =>
    intro acc h0 hm v h
    rw [fromStrRadix16LoopPos] at h
    cases hd : char_to_digit16 c with
    | none => rw [hd] at h; cases h
    | some d =>
      rw [hd] at h
      have h2 : (if acc * 16 + (d : Int) > max
          then (.error .PosOverflow : Except IntErrorKind Int)
          else fromStrRadix16LoopPos max (acc * 16 + (d : Int)) rest) = .ok v := h
      by_cases hov : acc * 16 + (d : Int) > max
      · rw [if_pos hov] at h2; cases h2
      · rw [if_neg hov] at h2
        exact ih (acc * 16 + (d : Int)) (by omega) (by omega) v h2

/-- The negative accumulation loop keeps its result in `[min, 0]`. -/
theorem fromStrRadix16LoopNeg_bounds (min : Int) :
    ∀ (l : List Nat) (acc : Int), min ≤ acc → acc ≤ 0 →
      ∀ v, fromStrRadix16LoopNeg min acc l = .ok v → min ≤ v ∧ v ≤ 0 := by
  intro l
  induction l with
  | nil =>
    intro acc hm h0 v h
    rw [fromStrRadix16LoopNeg] at h
    cases h
    exact ⟨hm, h0⟩
  | cons c rest ih =>
    intro acc hm h0 v h
    rw [fromStrRadix16LoopNeg] at h
    cases hd : char_to_digit16 c with
    | none => rw [hd] at h; cases h
    | some d =>
      rw [hd] at h
      have h2 : (if acc * 16 - (d : Int) < min
          then (.error .NegOverflow : Except IntErrorKind Int)
          else fromStrRadix16LoopNeg min (acc * 16 - (d : Int)) rest) = .ok v := h
      by_cases hov : acc * 16 - (d : Int) < min
      · rw [if_pos hov] at h2; cases h2
      · rw [if_neg hov] at h2
        exact ih (acc * 16 - (d : Int)) (by omega) (by omega) v h2

/-- The signed `from_str_radix` never returns a value outside
`[min, max]` (for any type, `min ≤ 0 ≤ max`). -/
theorem from_str_radix16_signed_bounds (min max : Int) (hmin : min ≤ 0) (hmax : 0 ≤ max)
    (s : List Nat) (v : Int) (h : from_str_radix16_signed min max s = .ok v) :
    min ≤ v ∧ v ≤ max := by
  unfold from_str_radix16_signed at h
  split at h
  · exact Except.noConfusion h
  · split at h
    · split at h
      · exact Except.noConfusion h
      · obtain ⟨h1, h2⟩ := fromStrRadix16LoopPos_bounds max _ 0 le_rfl hmax v h
        exact ⟨by omega, h2⟩
    · split at h
      · split at h
        · exact Except.noConfusion h
        · obtain ⟨h1, h2⟩ := fromStrRadix16LoopNeg_bounds min _ 0 hmin le_rfl v h
          exact ⟨h1, by omega⟩
      · obtain ⟨h1, h2⟩ := fromStrRadix16LoopPos_bounds max _ 0 le_rfl hmax v h
        exact ⟨by omega, h2⟩

/-- Claim C9: for each fixed-width integer type, `try_from_hex` strips
the optional `"0x"` prefix and parses the remainder in base 16, wrapping
any failure of the underlying numeric parser in `ParseIntError`.  The
unsigned types are modelled by their maximum value (`4294967295` for
`u32`, `255` for `u8`), the signed ones by their minimum and maximum
(`-128`/`127` for `i8`).  Conjuncts: `u32::try_from_hex("0x522") ==
Ok(1314)`; `u8::try_from_hex("0x100")` overflows; prefix stripping and
error wrapping for every unsigned and signed type; the signed parser
accepts a leading minus (`i8::try_from_hex("-1") == Ok(-1)`) and rejects
out-of-range magnitudes in both directions (`i8` on `"80"` and `"-81"`);
and no accepted value ever leaves the type's range. -/
theorem claim_C9_numeric_parse :
    try_from_hex 4294967295 [0x30, 0x78, 0x35, 0x32, 0x32] = .ok 1314 ∧
    try_from_hex 255 [0x30, 0x78, 0x31, 0x30, 0x30]
      = .error (.ParseIntError .PosOverflow) ∧
    (∀ (max : Nat) (s : List Nat),
      try_from_hex max (0x30 :: 0x78 :: s)
        = match from_str_radix16 max s with
          | .ok v => .ok v
          | .error k => .error (.ParseIntError k)) ∧
    (∀ (min max : Int) (s : List Nat),
      try_from_hex_signed min max (0x30 :: 0x78 :: s)
        = match from_str_radix16_signed min max s with
          | .ok v => .ok v
          | .error k => .error (.ParseIntError k)) ∧
    try_from_hex_signed (-128) 127 [0x2d, 0x31] = .ok (-1) ∧
    try_from_hex_signed (-128) 127 [0x38, 0x30]
      = .error (.ParseIntError .PosOverflow) ∧
    try_from_hex_signed (-128) 127 [0x2d, 0x38, 0x31]
      = .error (.ParseIntError .NegOverflow) ∧
    (∀ (max : Nat) (s : List Nat) (v : Nat), try_from_hex max s = .ok v → v ≤ max) ∧
    (∀ (min max : Int) (s : List Nat) (v : Int), min ≤ 0 → 0 ≤ max →
      try_from_hex_signed min max s = .ok v → min ≤ v ∧ v ≤ max) := by
  refine ⟨rfl, rfl, fun max s => rfl, fun min max s => rfl, rfl, rfl, rfl,
    fun max s v h => ?_, fun min max s v hmin hmax h => ?_⟩
  · rw [try_from_hex] at h
    cases hr : from_str_radix16 max (strip_0x s) with
    | error k => rw [hr] at h; cases h
    | ok w =>
      rw [hr] at h
      cases h
      exact from_str_radix16_le max (strip_0x s) v hr
  · rw [try_from_hex_signed] at h
    cases hr : from_str_radix16_signed min max (strip_0x s) with
    | error k => rw [hr] at h; cases h
    | ok w =>
      rw [hr] at h
      cases h
      exact from_str_radix16_signed_bounds min max hmin hmax (strip_0x s) v hr

/-- Claim C9, witness: the unsigned bound applied to `"0x522"` for `u32`
and the signed bound applied to `"-1"` for `i8`. -/
theorem claim_C9_witness :
    try_from_hex 4294967295 [0x30, 0x78, 0x35, 0x32, 0x32] = .ok 1314 ∧
      (1314 : Nat) ≤ 4294967295 ∧
    try_from_hex_signed (-128) 127 [0x2d, 0x31] = .ok (-1) ∧
      ((-128 : Int) ≤ -1 ∧ (-1 : Int) ≤ 127) :=
  ⟨rfl,
   claim_C9_numeric_parse.2.2.2.2.2.2.2.1 4294967295 [0x30, 0x78, 0x35, 0x32, 0x32] 1314 rfl,
   rfl,
   claim_C9_numeric_parse.2.2.2.2.2.2.2.2 (-128) 127 [0x2d, 0x31] (-1)
    (by decide) (by decide) rfl⟩

/-- A successful run of the unchecked decoding loop consumes two input
bytes per output byte. -/
theorem hex2bytesUncheckedLoop_length :
    ∀ l r : List Nat, hex2bytesUncheckedLoop l = some r → 2 * r.length = l.length := by
  intro l
  induction l using hex2bytesUncheckedLoop.induct with
  | case1 => intro r h; cases h; rfl
  | case2 a => intro r h; cases h
  | case3 a b rest hnone =>
    intro r h
    rw [hex2bytesUncheckedLoop, hnone] at h
    cases h
  | case4 a b rest byte hsome hrec ih =>
    intro r h
    rw [hex2bytesUncheckedLoop, hsome, hrec] at h
    cases h
  | case5 a b rest byte hsome tail hrec ih =>
    intro r h
    rw [hex2bytesUncheckedLoop, hsome, hrec] at h
    cases h
    have := ih tail hrec
    simp
    omega

/-- If the first `k` digit pairs decode (to `pre`) and pair `k` fails
with error `e`, then the write loop of `hex2slice` stops with `e`, the
destination holding the `k` decoded bytes followed by its untouched
tail. -/
theorem hex2sliceWriteLoop_partial :
    ∀ (k : Nat) (slice s : List Nat) (i : Nat) (pre : List Nat) (e : Error),
      hex2bytesUncheckedLoop (s.take (2 * k)) = some pre →
      hex2byte (s.getD (2 * k) 0, i + 2 * k) (s.getD (2 * k + 1) 0, i + 2 * k + 1)
        = .error e →
      k < slice.length → 2 * k + 1 < s.length →
      hex2sliceWriteLoop slice s i = (.error e, pre ++ slice.drop k) := by
  intro k
  induction k with
  | zero =>
    intro slice s i pre e hpre herr hks hkh
    rw [Nat.mul_zero, List.take_zero] at hpre
    cases hpre
    rw [Nat.mul_zero, Nat.add_zero] at herr
    cases slice with
    | nil => simp at hks
    | cons s0 srest =>
      cases s with
      | nil => simp at hkh
      | cons a t =>
        cases t with
        | nil => simp at hkh
        | cons b t2 =>
          simp only [List.getD_cons_zero, List.getD_cons_succ] at herr
          rw [hex2sliceWriteLoop, herr]
          simp
  | succ k ih =>
    intro slice s i pre e hpre herr hks hkh
    cases slice with
    | nil => simp at hks
    | cons s0 srest0 =>
      cases s with
      | nil => simp at hkh
      | cons a t =>
        cases t with
        | nil => simp at hkh
        | cons b srest =>
          have h22 : 2 * (k + 1) = 2 * k + 1 + 1 := by omega
          rw [h22, List.take_succ_cons, List.take_succ_cons] at hpre
          rw [hex2bytesUncheckedLoop] at hpre
          cases hab : hex2byte_unchecked a b with
          | none => rw [hab] at hpre; cases hpre
          | some byte =>
            rw [hab] at hpre
            cases hrec : hex2bytesUncheckedLoop (srest.take (2 * k)) with
            | none => rw [hrec] at hpre; cases hpre
            | some tail =>
              rw [hrec] at hpre
              cases hpre
              have herr2 : hex2byte (srest.getD (2 * k) 0, (i + 2) + 2 * k)
                  (srest.getD (2 * k + 1) 0, (i + 2) + 2 * k + 1) = .error e := by
                have e1 : i + 2 * (k + 1) = (i + 2) + 2 * k := by omega
                have e2 : (a :: b :: srest).getD (2 * (k + 1)) 0 = srest.getD (2 * k) 0 := by
                  rw [h22]
                  simp [List.getD_cons_succ]
                have e3 : (a :: b :: srest).getD (2 * (k + 1) + 1) 0
                    = srest.getD (2 * k + 1) 0 := by
                  rw [h22]
                  simp [List.getD_cons_succ]
                rw [e1, e2, e3] at herr
                exact herr
              have hw := ih srest0 srest (i + 2) tail e hrec herr2
                (by simp at hks; omega) (by simp at hkh; omega)
              rw [hex2sliceWriteLoop, hex2byte_of_unchecked a b byte i (i + 1) hab, hw]
              simp

/-- Claim C10: when `hex2slice` has passed its length checks but the
input's digit pairs before position `k` decode to `pre` while pair `k`
contains an invalid character, it returns that `InvalidCharacter` error
with the `k` decoded bytes already written into the destination and the
destination's bytes from position `k` on unchanged (`pre ++ slice.drop k`,
a partial write observable by the caller). -/
theorem claim_C10_partial_write (hex slice : List Nat) (k : Nat) (pre : List Nat) (e : Error)
    (heven : (strip_0x_bytes hex).length % 2 = 0)
    (hlen : (strip_0x_bytes hex).length >>> 1 = slice.length)
    (hpre : hex2bytesUncheckedLoop ((strip_0x_bytes hex).take (2 * k)) = some pre)
    (herr : hex2byte ((strip_0x_bytes hex).getD (2 * k) 0, 2 * k)
        ((strip_0x_bytes hex).getD (2 * k + 1) 0, 2 * k + 1) = .error e)
    (hk : 2 * k + 1 < (strip_0x_bytes hex).length) :
    hex2slice hex slice = (.error e, pre ++ slice.drop k) ∧ pre.length = k := by
  have hdiv : (strip_0x_bytes hex).length >>> 1 = (strip_0x_bytes hex).length / 2 :=
    Nat.shiftRight_one _
  have hks : k < slice.length := by omega
  have herr0 : hex2byte ((strip_0x_bytes hex).getD (2 * k) 0, 0 + 2 * k)
      ((strip_0x_bytes hex).getD (2 * k + 1) 0, 0 + 2 * k + 1) = .error e := by
    simpa using herr
  have hw := hex2sliceWriteLoop_partial k slice (strip_0x_bytes hex) 0 pre e hpre herr0 hks hk
  constructor
  · rw [hex2slice]
    rw [if_neg (by omega), if_neg (by omega), hw]
  · have h2 := hex2bytesUncheckedLoop_length _ pre hpre
    rw [List.length_take] at h2
    omega

/-- Claim C10, witness: `hex2slice("0xffzz00", [9, 9, 9])`: the first
pair decodes to `0xff` and is written; pair 1 hits `'z'` at index 2; the
destination tail keeps its previous bytes. -/
theorem claim_C10_witness :
    hex2slice [0x30, 0x78, 0x66, 0x66, 0x7a, 0x7a, 0x30, 0x30] [9, 9, 9]
      = (.error (.InvalidCharacter 0x7a 2), [0xff] ++ [9, 9, 9].drop 1) ∧
      ([0xff] : List Nat).length = 1 :=
  claim_C10_partial_write [0x30, 0x78, 0x66, 0x66, 0x7a, 0x7a, 0x30, 0x30] [9, 9, 9] 1 [0xff]
    (.InvalidCharacter 0x7a 2) (by decide) (by decide) (by decide) (by decide) (by decide)

end ArrayBytes
